import Mathlib

/-!
Shallow embedding of the convolution engine of `bbcat-dsp` (src/Convolver.cpp,
src/Convolver.h).  Floating-point values are modelled as rationals, the C
`uint_t` indices as naturals.  Audio buffers are lists of rationals; an
interleaved multi-channel buffer handed to the manager is modelled as a total
function from sample index to value.  The partitioned FFT convolver
(`BlockConvolver` / `apf::conv`) and the fractional-sample interpolator
(`FractionalSample.h`) are external to these sources; they enter the model
only as parameters (a per-worker block-in/block-out function and an
interpolation function), which is all the statements below need of them.
-/

namespace BbcatDsp

/-! ### Arithmetic helpers: C integer division as floor and ceiling -/

/-- Natural division of naturals agrees with the floor of rational division. -/
theorem toNat_floor_natCast_div (a b : ℕ) :
    (⌊(a : ℚ) / (b : ℚ)⌋).toNat = a / b := by
  rw [Int.floor_toNat]
  exact Nat.floor_div_eq_div a b

/-- The C idiom `(a + b - 1) / b` computes the ceiling of `a / b`. -/
theorem nat_ceil_div_eq (a b : ℕ) (hb : 0 < b) :
    ⌈(a : ℚ) / (b : ℚ)⌉₊ = (a + b - 1) / b := by
  rcases Nat.eq_zero_or_pos a with ha | ha
  · subst ha
    have h1 : (b - 1) / b = 0 := Nat.div_eq_of_lt (by omega)
    simp [h1]
  · have hq := Nat.div_add_mod (a + b - 1) b
    have hr : (a + b - 1) % b < b := Nat.mod_lt _ hb
    set q := (a + b - 1) / b with hqdef
    set r := (a + b - 1) % b with hrdef
    have hq0 : q ≠ 0 := by
      intro h
      rw [h, Nat.mul_zero, Nat.zero_add] at hq
      omega
    have hone : 1 ≤ q := Nat.one_le_iff_ne_zero.mpr hq0
    have hmul : b * (q - 1) + b = b * q := by
      calc b * (q - 1) + b = b * (q - 1) + b * 1 := by rw [Nat.mul_one]
        _ = b * (q - 1 + 1) := (Nat.mul_add b (q - 1) 1).symm
        _ = b * q := by rw [Nat.sub_add_cancel hone]
    have hub : a ≤ b * q := by omega
    have hlt : (q - 1) * b < a := by
      rw [Nat.mul_comm]
      omega
    rw [Nat.ceil_eq_iff hq0]
    have hbq : (0 : ℚ) < (b : ℚ) := by exact_mod_cast hb
    constructor
    · rw [lt_div_iff₀ hbq]
      exact_mod_cast hlt
    · rw [div_le_iff₀ hbq]
      have hub' : a ≤ q * b := by rw [Nat.mul_comm]; exact hub
      exact_mod_cast hub'

/-- The `toNat` form of the previous lemma, matching C casts. -/
theorem toNat_ceil_natCast_div (a b : ℕ) (hb : 0 < b) :
    (⌈(a : ℚ) / (b : ℚ)⌉).toNat = (a + b - 1) / b := by
  rw [Int.ceil_toNat]
  exact nat_ceil_div_eq a b hb

/-- Integer form: the partition count `(len + B - 1) / B` is `⌈len / B⌉`. -/
theorem intCast_ceil_natCast_div (a b : ℕ) (hb : 0 < b) :
    (((a + b - 1) / b : ℕ) : ℤ) = ⌈(a : ℚ) / (b : ℚ)⌉ := by
  have hc : (0 : ℤ) ≤ ⌈(a : ℚ) / (b : ℚ)⌉ :=
    Int.ceil_nonneg (div_nonneg (Nat.cast_nonneg a) (Nat.cast_nonneg b))
  rw [← toNat_ceil_natCast_div a b hb, Int.toNat_of_nonneg hc]

/-! ### Fade structure and partition calculation (ConvolverManager) -/

/-- Struct `ConvolverManager::FILTER_FADE`: fade times in seconds. -/
structure FILTER_FADE where
  fade_in_start : ℚ
  fade_in_length : ℚ
  fade_out_start : ℚ
  fade_out_length : ℚ

/-- The default fade: all zeros. -/
def defaultfade : FILTER_FADE := ⟨0, 0, 0, 0⟩

namespace ConvolverManager

/-- Start sample computed by `ConvolverManager::CalcPartitions`:
`start = (uint_t)floor(MAX(fade.fade_in_start, 0.0) * samplerate)`. -/
def calcFilterStart (fade : FILTER_FADE) (samplerate : ℚ) : ℕ :=
  (⌊max fade.fade_in_start 0 * samplerate⌋).toNat

/-- Filter length computed by `ConvolverManager::CalcPartitions`:
either `filterlen - start` (no fade-out) or the fade window length capped
at `filterlen - start`. -/
def calcFilterLen (fade : FILTER_FADE) (samplerate : ℚ) (filterlen start : ℕ) : ℕ :=
  if fade.fade_out_start + fade.fade_out_length = 0 then filterlen - start
  else
    min ((⌈max (fade.fade_out_start + fade.fade_out_length - fade.fade_in_start) 0
            * samplerate⌉).toNat)
      (filterlen - start)

/-- Function `ConvolverManager::CalcPartitions`, returning
`(partitions, start, len)`; the C function returns the partition count and
writes `start` and `len` through reference parameters. -/
def CalcPartitions (fade : FILTER_FADE) (samplerate : ℚ) (filterlen blocksize : ℕ) :
    ℕ × ℕ × ℕ :=
  let start := calcFilterStart fade samplerate
  let len := calcFilterLen fade samplerate filterlen start
  ((len + blocksize - 1) / blocksize, start, len)

end ConvolverManager

/-! ### Per-channel worker (class Convolver) -/

namespace Convolver

/-- Constant `Convolver::maxadditionaldelay`, a process-wide constant. -/
def maxadditionaldelay : ℕ := 2400

/-- The tail delay line length allocated at the top of `Convolver::Process`:
`delaylen = (1 + ((maxdelay + blocksize - 1) / blocksize)) * blocksize`
with `maxdelay = maxadditionaldelay` (C unsigned division). -/
def delayLen (blocksize : ℕ) : ℕ :=
  (1 + (maxadditionaldelay + blocksize - 1) / blocksize) * blocksize

/-- The clamp applied to the requested delay inside `Convolver::Process`:
`maxdelay = delaylen - blocksize - 1 - FractionalSampleAdditionalDelayRequired()`.
The additional delay of the interpolator is the parameter `fracdelay`. -/
def maxDelay (blocksize fracdelay : ℕ) : ℕ :=
  delayLen blocksize - blocksize - 1 - fracdelay

/-- The state of one `Convolver` worker.  Fields up to `quitthread` mirror the
C++ data members; `delayline`, `delaypos`, `delay1` and `level1` are the
locals of the processing thread `Convolver::Process` that persist from one
block to the next; `fracdelay` stands for the constant
`FractionalSampleAdditionalDelayRequired()` of the external interpolator. -/
structure State where
  convindex : ℕ
  blocksize : ℕ
  partitions : ℕ
  zeroblocks : ℕ
  maxzeroblocks : ℕ
  inputBlock : List ℚ
  outputBlock : List ℚ
  outputdelay : ℚ
  outputlevel : ℚ
  hqproc : Bool
  filter : Option ℕ
  delayline : List ℚ
  delaypos : ℕ
  delay1 : ℚ
  level1 : ℚ
  fracdelay : ℕ

instance : Inhabited State :=
  ⟨⟨0, 0, 0, 0, 0, [], [], 0, 1, false, none, [], 0, 0, 1, 0⟩⟩

/-- The `Convolver` constructor together with the initialisation at the top of
`Convolver::Process`: `zeroblocks = 0`,
`maxzeroblocks = partitions + (maxadditionaldelay / blocksize) + 1`,
delay memory cleared, `delaypos = 0`, `delay1 = 0.0`, `level1 = 1.0`. -/
def mk (convindex blocksize partitions : ℕ) (delay : ℚ) (fracdelay : ℕ) : State :=
  { convindex := convindex
    blocksize := blocksize
    partitions := partitions
    zeroblocks := 0
    maxzeroblocks := partitions + maxadditionaldelay / blocksize + 1
    inputBlock := List.replicate blocksize 0
    outputBlock := List.replicate blocksize 0
    outputdelay := delay
    outputlevel := 1
    hqproc := false
    filter := none
    delayline := List.replicate (delayLen blocksize) 0
    delaypos := 0
    delay1 := 0
    level1 := 1
    fracdelay := fracdelay }

/-- Method `Convolver::SetParameters`. -/
def SetParameters (w : State) (level delay : ℚ) (hqproc : Bool) : State :=
  { w with outputlevel := level, outputdelay := delay, hqproc := hqproc }

/-- Method `DynamicConvolver::SetFilter`; the filter is identified by its index in
the manager library (the C++ code stores a pointer to `filters[ir]`). -/
def SetFilter (w : State) (newfilter : ℕ) : State :=
  { w with filter := some newfilter }

/-- Method `Convolver::StartConvolution`: de-interleave `blocksize` samples (stride
`inputchannels`), detect silence, update `zeroblocks`, and signal the worker
thread iff `zeroblocks < maxzeroblocks`.  Returns the new state and whether
the start semaphore was signalled. -/
def StartConvolution (w : State) (inputData : ℕ → ℚ) (inputchannels : ℕ) :
    State × Bool :=
  let inp := (List.range w.blocksize).map fun i => inputData (i * inputchannels)
  let nonzero := inp.any fun v => decide (v ≠ 0)
  let zb := if nonzero then 0
    else if w.zeroblocks < w.maxzeroblocks then w.zeroblocks + 1
    else w.zeroblocks
  ({ w with inputBlock := inp, zeroblocks := zb }, decide (zb < w.maxzeroblocks))

/-- Write a block of samples into the delay line starting at `pos`. -/
def writeAt : List ℚ → ℕ → List ℚ → List ℚ
  | line, _, [] => line
  | line, pos, v :: rest => writeAt (line.set pos v) (pos + 1) rest

/-- The per-sample computation of the output loop in `Convolver::Process`:
`b = i / blocksize`, `a = 1 - b`, `fpos = a·fpos1 + b·fpos2`,
`level = a·level1 + b·level2`; in HQ mode the sample is read through the
external fractional interpolator, otherwise `delay[(uint_t)fpos % delaylen]`. -/
def outSample (interp : List ℚ → ℚ → ℚ) (line : List ℚ) (delaylen blocksize : ℕ)
    (fpos1 fpos2 level1 level2 : ℚ) (hqproc : Bool) (i : ℕ) : ℚ :=
  let b : ℚ := (i : ℚ) / (blocksize : ℚ)
  let a : ℚ := 1 - b
  let fpos := a * fpos1 + b * fpos2
  let level := a * level1 + b * level2
  if hqproc then level * interp line fpos
  else level * line.getD ((⌊fpos⌋).toNat % delaylen) 0

/-- One iteration of the loop body of `Convolver::Process`, from being
released by the start semaphore to signalling the done semaphore.
`interp` models the external `FractionalSample` reader (HQ mode only) and
`convOut` the block produced by the virtual `Convolve` call (the partitioned
FFT convolution, implemented outside these sources). -/
def processBlock (interp : List ℚ → ℚ → ℚ) (w : State) (convOut : List ℚ) : State :=
  let delaylen := delayLen w.blocksize
  let line :=
    if w.zeroblocks < w.partitions then writeAt w.delayline w.delaypos convOut
    else writeAt w.delayline w.delaypos (List.replicate w.blocksize 0)
  let pos1 : ℕ := w.delaypos + delaylen
  let level2 := w.outputlevel
  let delay2 : ℚ := min w.outputdelay ((maxDelay w.blocksize w.fracdelay : ℕ) : ℚ)
  let fpos1 : ℚ := (pos1 : ℚ) - w.delay1
  let fpos2 : ℚ := ((pos1 + w.blocksize : ℕ) : ℚ) - delay2
  let out := (List.range w.blocksize).map
    (outSample interp line delaylen w.blocksize fpos1 fpos2 w.level1 level2 w.hqproc)
  { w with delayline := line
           outputBlock := out
           delaypos := (w.delaypos + w.blocksize) % delaylen
           delay1 := delay2
           level1 := level2 }

/-- The function applied to the running output buffer by the mixing loop of
`Convolver::EndConvolution`:
`for (i = 0; i < blocksize; i++) _output[i * outputchannels] += output[i] * level`
with `_output = output + base`. -/
def mixInto (out : ℕ → ℚ) (base stride blocksize : ℕ) (blk : List ℚ) (level : ℚ) :
    ℕ → ℚ :=
  (List.range blocksize).foldl
    (fun o n =>
      Function.update o (base + n * stride) (o (base + n * stride) + blk.getD n 0 * level))
    out

/-- Method `Convolver::EndConvolution`: if processing was triggered this tick
(`zeroblocks < maxzeroblocks`), wait for the done semaphore and mix the
locally generated output into the supplied buffer; otherwise do nothing. -/
def EndConvolution (w : State) (out : ℕ → ℚ) (base outputchannels : ℕ) (level : ℚ) :
    ℕ → ℚ :=
  if w.zeroblocks < w.maxzeroblocks then
    mixInto out base outputchannels w.blocksize w.outputBlock level
  else out

end Convolver

/-! ### Convolver manager -/

namespace ConvolverManager

/-- Struct `ConvolverManager::PARAMETERS` (field order as in the C++ struct). -/
structure PARAMETERS where
  irindex : ℕ
  delay : ℚ
  level : ℚ

instance : Inhabited PARAMETERS := ⟨⟨0, 0, 0⟩⟩

/-- The manager state.  The filter library is represented by the number of
loaded filters (`numfilters`); a filter is identified by its index, which is
what `SetFilter` records on a worker. -/
structure MState where
  blocksize : ℕ
  partitions : ℕ
  convolvers : List Convolver.State
  numfilters : ℕ
  irdelays : List (ℚ × ℚ)
  parameters : List PARAMETERS
  delayscale : ℚ
  maxdelay : ℚ
  audioscale : ℚ
  hqproc : Bool
  updateparameters : Bool

/-- Method `ConvolverManager::SetDelayScale` (Convolver.h). -/
def SetDelayScale (m : MState) (scale : ℚ) : MState :=
  { m with delayscale := scale, updateparameters := true }

/-- Method `ConvolverManager::EnableHQProcessing` (Convolver.h). -/
def EnableHQProcessing (m : MState) (enable : Bool) : MState :=
  { m with hqproc := enable, updateparameters := true }

/-- Method `ConvolverManager::SetIRDelays`: clears the delay table and `maxdelay`,
then installs `num_delays` (dynamic, static) pairs, tracking the maximum of
`dynamic + static`.  Note: it does not touch `updateparameters`. -/
def SetIRDelays (m : MState) (delays_dynamic : List ℚ) (num_delays : ℕ)
    (delays_static : List ℚ) : MState :=
  let pairs := (List.range num_delays).map fun i =>
    (delays_dynamic.getD i 0, delays_static.getD i 0)
  { m with irdelays := pairs
           maxdelay := pairs.foldl (fun acc p => max acc (p.1 + p.2)) 0 }

/-- Method `ConvolverManager::LoadIRDelays`: the text file is modelled as `none`
(open failure or null filename) or `some pairs` (the parsed
dynamic/static lines).  The delay table is cleared in either case; the
update flag is set only on a successful read. -/
def LoadIRDelays (m : MState) (contents : Option (List (ℚ × ℚ))) : MState :=
  match contents with
  | none => { m with irdelays := [], maxdelay := 0 }
  | some l => { m with irdelays := l, maxdelay := 0, updateparameters := true }

/-- The effect of `ConvolverManager::UpdateConvolverParameters` on the worker
itself: for a stored IR index within the library, select that filter and pass
`level` and `irdelay_static + irdelay_dynamic * delayscale + extra_delay`
together with the HQ flag of the manager; otherwise do nothing. -/
def updateWorkerParams (m : MState) (convolver : ℕ) (w : Convolver.State) :
    Convolver.State :=
  let params := m.parameters.getD convolver default
  let ir := params.irindex
  if ir < m.numfilters then
    let delay : ℚ :=
      if ir < m.irdelays.length then
        (m.irdelays.getD ir (0, 0)).2 + (m.irdelays.getD ir (0, 0)).1 * m.delayscale
      else 0
    Convolver.SetParameters (Convolver.SetFilter w ir) params.level
      (delay + params.delay) m.hqproc
  else w

/-- Method `ConvolverManager::UpdateConvolverParameters`: guard the worker index,
then apply `updateWorkerParams`; when the stored IR index is out of range the
function does nothing at all. -/
def UpdateConvolverParameters (m : MState) (convolver : ℕ) : MState :=
  if convolver < m.convolvers.length then
    if (m.parameters.getD convolver default).irindex < m.numfilters then
      let w' := updateWorkerParams m convolver (m.convolvers.getD convolver default)
      { m with convolvers := m.convolvers.set convolver w' }
    else m
  else m

/-- Method `ConvolverManager::SelectIR`: validate both indices, store the
parameters and update the worker; return whether the selection succeeded. -/
def SelectIR (m : MState) (convolver ir : ℕ) (level delay : ℚ) : Bool × MState :=
  if convolver < m.convolvers.length then
    if ir < m.numfilters then
      let m1 := { m with parameters := m.parameters.set convolver ⟨ir, delay, level⟩ }
      (true, UpdateConvolverParameters m1 convolver)
    else (false, m)
  else (false, m)

/-- Replace worker `i` of the manager (the effect on the manager state of a
call that mutates one `Convolver` object in place). -/
def setWorker (m : MState) (i : ℕ) (w : Convolver.State) : MState :=
  { m with convolvers := m.convolvers.set i w }

/-- The per-worker start action of `ConvolverManager::Convolve`:
`StartConvolution` on the input channel `i / outputchannels`; if the start
semaphore was signalled, the worker thread runs one iteration of `Process`
before the main thread reaches `EndConvolution`, so that processing is folded
in here.  `conv` supplies, per worker, the output block of the external
partitioned convolver for the de-interleaved input block. -/
def startWorker (interp : List ℚ → ℚ → ℚ) (conv : ℕ → List ℚ → List ℚ)
    (input : ℕ → ℚ) (inputchannels outputchannels : ℕ) (i : ℕ)
    (w : Convolver.State) : Convolver.State :=
  let ws := Convolver.StartConvolution w (fun idx => input (i / outputchannels + idx))
    inputchannels
  if ws.2 then Convolver.processBlock interp ws.1 (conv i ws.1.inputBlock) else ws.1

/-- The body of the first loop of `ConvolverManager::Convolve` for worker `i`:
update parameters if the flag is set, then `startWorker` on worker `i`. -/
def convolveStartStep (interp : List ℚ → ℚ → ℚ) (conv : ℕ → List ℚ → List ℚ)
    (input : ℕ → ℚ) (inputchannels outputchannels : ℕ) (m : MState) (i : ℕ) :
    MState :=
  let m := if m.updateparameters then UpdateConvolverParameters m i else m
  setWorker m i
    (startWorker interp conv input inputchannels outputchannels i
      (m.convolvers.getD i default))

/-- The body of the second loop of `ConvolverManager::Convolve` for worker
`i`: `EndConvolution` mixing into the interleaved output at channel
`i % outputchannels`, scaled by `audioscale`. -/
def convolveEndStep (outputchannels : ℕ) (audioscale : ℚ) (ws : List Convolver.State)
    (out : ℕ → ℚ) (i : ℕ) : ℕ → ℚ :=
  Convolver.EndConvolution (ws.getD i default) out (i % outputchannels) outputchannels
    audioscale

/-- Method `ConvolverManager::Convolve`: one processing tick.  Starts all workers in
index order (updating parameters first when the flag is set), clears the
flag, then joins all workers in index order, accumulating their outputs. -/
def Convolve (interp : List ℚ → ℚ → ℚ) (conv : ℕ → List ℚ → List ℚ) (m : MState)
    (input output : ℕ → ℚ) (inputchannels outputchannels : ℕ) :
    MState × (ℕ → ℚ) :=
  let n := m.convolvers.length
  let m1 := (List.range n).foldl
    (convolveStartStep interp conv input inputchannels outputchannels) m
  let m2 := { m1 with updateparameters := false }
  let out' := (List.range n).foldl
    (convolveEndStep outputchannels m2.audioscale m2.convolvers) output
  (m2, out')

end ConvolverManager

/-! ### List access helpers -/

theorem getD_set_self {α : Type} [Inhabited α] (l : List α) (i : ℕ) (a : α)
    (h : i < l.length) : (l.set i a).getD i default = a := by
  rw [List.getD_eq_getElem?_getD, List.getElem?_set_self (by simpa using h)]
  rfl

theorem getD_set_ne {α : Type} [Inhabited α] (l : List α) (i j : ℕ) (a : α)
    (h : j ≠ i) : (l.set i a).getD j default = l.getD j default := by
  rw [List.getD_eq_getElem?_getD, List.getElem?_set_ne (by omega),
    ← List.getD_eq_getElem?_getD]

theorem getD_map_range {α : Type} (f : ℕ → α) (B n : ℕ) (hn : n < B) (d : α) :
    ((List.range B).map f).getD n d = f n := by
  rw [List.getD_eq_getElem _ _ (by simpa using hn)]
  simp

/-! ### Basic facts about UpdateConvolverParameters -/

theorem updateCP_parameters (m : ConvolverManager.MState) (i : ℕ) :
    (ConvolverManager.UpdateConvolverParameters m i).parameters = m.parameters := by
  unfold ConvolverManager.UpdateConvolverParameters
  split
  · split
    · rfl
    · rfl
  · rfl

theorem updateCP_getD_self (m : ConvolverManager.MState) (i : ℕ)
    (hi : i < m.convolvers.length)
    (hir : (m.parameters.getD i default).irindex < m.numfilters) :
    (ConvolverManager.UpdateConvolverParameters m i).convolvers.getD i default
      = ConvolverManager.updateWorkerParams m i (m.convolvers.getD i default) := by
  unfold ConvolverManager.UpdateConvolverParameters
  rw [if_pos hi, if_pos hir]
  exact getD_set_self _ _ _ hi

theorem updateCP_getD_ne (m : ConvolverManager.MState) (i j : ℕ) (h : j ≠ i) :
    (ConvolverManager.UpdateConvolverParameters m i).convolvers.getD j default
      = m.convolvers.getD j default := by
  unfold ConvolverManager.UpdateConvolverParameters
  split
  · split
    · exact getD_set_ne _ _ _ _ h
    · rfl
  · rfl

theorem updateCP_getD_self_total (m : ConvolverManager.MState) (i : ℕ)
    (hi : i < m.convolvers.length) :
    (ConvolverManager.UpdateConvolverParameters m i).convolvers.getD i default
      = ConvolverManager.updateWorkerParams m i (m.convolvers.getD i default) := by
  unfold ConvolverManager.UpdateConvolverParameters
  rw [if_pos hi]
  by_cases hir : (m.parameters.getD i default).irindex < m.numfilters
  · rw [if_pos hir]
    exact getD_set_self _ _ _ hi
  · rw [if_neg hir]
    unfold ConvolverManager.updateWorkerParams
    rw [if_neg hir]

theorem updateCP_ctx (m : ConvolverManager.MState) (i : ℕ) :
    (ConvolverManager.UpdateConvolverParameters m i).parameters = m.parameters
    ∧ (ConvolverManager.UpdateConvolverParameters m i).numfilters = m.numfilters
    ∧ (ConvolverManager.UpdateConvolverParameters m i).irdelays = m.irdelays
    ∧ (ConvolverManager.UpdateConvolverParameters m i).delayscale = m.delayscale
    ∧ (ConvolverManager.UpdateConvolverParameters m i).hqproc = m.hqproc
    ∧ (ConvolverManager.UpdateConvolverParameters m i).audioscale = m.audioscale
    ∧ (ConvolverManager.UpdateConvolverParameters m i).updateparameters = m.updateparameters
    ∧ (ConvolverManager.UpdateConvolverParameters m i).convolvers.length
      = m.convolvers.length := by
  unfold ConvolverManager.UpdateConvolverParameters
  split
  · split
    · simp
    · simp
  · simp

theorem updateWorkerParams_congr (m m' : ConvolverManager.MState) (i : ℕ)
    (w : Convolver.State) (hp : m'.parameters = m.parameters)
    (hn : m'.numfilters = m.numfilters) (hd : m'.irdelays = m.irdelays)
    (hs : m'.delayscale = m.delayscale) (hh : m'.hqproc = m.hqproc) :
    ConvolverManager.updateWorkerParams m' i w
      = ConvolverManager.updateWorkerParams m i w := by
  unfold ConvolverManager.updateWorkerParams
  rw [hp, hn, hd, hs, hh]

theorem updateWorkerParams_blocksize (m : ConvolverManager.MState) (i : ℕ)
    (w : Convolver.State) :
    (ConvolverManager.updateWorkerParams m i w).blocksize = w.blocksize := by
  unfold ConvolverManager.updateWorkerParams
  by_cases h : (m.parameters.getD i default).irindex < m.numfilters
  · simp only [h, if_true]
    rfl
  · simp only [h, if_false]

/-! ### Pointwise behaviour of the output-mixing loop -/

theorem mixInto_succ (o : ℕ → ℚ) (base stride B : ℕ) (blk : List ℚ) (lvl : ℚ) :
    Convolver.mixInto o base stride (B + 1) blk lvl
      = (fun prev => Function.update prev (base + B * stride)
          (prev (base + B * stride) + blk.getD B 0 * lvl))
        (Convolver.mixInto o base stride B blk lvl) := by
  unfold Convolver.mixInto
  rw [List.range_succ, List.foldl_append]
  rfl

theorem mixInto_apply_ne (o : ℕ → ℚ) (base stride B : ℕ) (blk : List ℚ) (lvl : ℚ)
    (idx : ℕ) (h : idx % stride ≠ base % stride) :
    Convolver.mixInto o base stride B blk lvl idx = o idx := by
  induction B with
  | zero => rfl
  | succ B ih =>
    have hne : idx ≠ base + B * stride := by
      intro hc
      apply h
      rw [hc, Nat.add_mul_mod_self_right]
    rw [mixInto_succ]
    simp only
    rw [Function.update_noteq hne]
    exact ih

theorem mixInto_apply_out (o : ℕ → ℚ) (base stride B : ℕ) (blk : List ℚ) (lvl : ℚ)
    (k : ℕ) (hstride : 0 < stride) (hk : B ≤ k) :
    Convolver.mixInto o base stride B blk lvl (base + k * stride)
      = o (base + k * stride) := by
  induction B with
  | zero => rfl
  | succ B ih =>
    have hne : base + k * stride ≠ base + B * stride := by
      intro hc
      have h2 : k = B := Nat.eq_of_mul_eq_mul_right hstride (by omega)
      omega
    rw [mixInto_succ]
    simp only
    rw [Function.update_noteq hne]
    exact ih (by omega)

theorem mixInto_apply_hit (o : ℕ → ℚ) (base stride B : ℕ) (blk : List ℚ) (lvl : ℚ)
    (k : ℕ) (hstride : 0 < stride) (hk : k < B) :
    Convolver.mixInto o base stride B blk lvl (base + k * stride)
      = o (base + k * stride) + blk.getD k 0 * lvl := by
  induction B with
  | zero => omega
  | succ B ih =>
    rw [mixInto_succ]
    simp only
    rcases Nat.lt_or_ge k B with h | h
    · have hne : base + k * stride ≠ base + B * stride := by
        intro hc
        have h2 : k = B := Nat.eq_of_mul_eq_mul_right hstride (by omega)
        omega
      rw [Function.update_noteq hne]
      exact ih h
    · have hkB : k = B := by omega
      subst hkB
      rw [Function.update_same]
      rw [mixInto_apply_out o base stride k blk lvl k hstride le_rfl]

/-! ### The start phase of one tick -/

theorem setWorker_getD_self (m : ConvolverManager.MState) (i : ℕ)
    (w : Convolver.State) (h : i < m.convolvers.length) :
    (ConvolverManager.setWorker m i w).convolvers.getD i default = w :=
  getD_set_self _ _ _ h

theorem setWorker_getD_ne (m : ConvolverManager.MState) (i j : ℕ)
    (w : Convolver.State) (h : j ≠ i) :
    (ConvolverManager.setWorker m i w).convolvers.getD j default
      = m.convolvers.getD j default :=
  getD_set_ne _ _ _ _ h

theorem convolveStartStep_eq (interp : List ℚ → ℚ → ℚ) (conv : ℕ → List ℚ → List ℚ)
    (input : ℕ → ℚ) (ic oc : ℕ) (acc : ConvolverManager.MState) (k : ℕ) :
    ConvolverManager.convolveStartStep interp conv input ic oc acc k
      = ConvolverManager.setWorker
          (if acc.updateparameters then ConvolverManager.UpdateConvolverParameters acc k
           else acc) k
          (ConvolverManager.startWorker interp conv input ic oc k
            ((if acc.updateparameters then ConvolverManager.UpdateConvolverParameters acc k
              else acc).convolvers.getD k default)) := rfl

/-- Manager-level fields and the worker count are invariant across one
start step. -/
theorem convolveStartStep_ctx (interp : List ℚ → ℚ → ℚ) (conv : ℕ → List ℚ → List ℚ)
    (input : ℕ → ℚ) (ic oc : ℕ) (acc : ConvolverManager.MState) (k : ℕ) :
    let s := ConvolverManager.convolveStartStep interp conv input ic oc acc k
    s.parameters = acc.parameters ∧ s.numfilters = acc.numfilters
    ∧ s.irdelays = acc.irdelays ∧ s.delayscale = acc.delayscale
    ∧ s.hqproc = acc.hqproc ∧ s.audioscale = acc.audioscale
    ∧ s.updateparameters = acc.updateparameters
    ∧ s.convolvers.length = acc.convolvers.length := by
  intro s
  have hs : s = ConvolverManager.convolveStartStep interp conv input ic oc acc k := rfl
  rw [hs, convolveStartStep_eq]
  by_cases hf : acc.updateparameters = true
  · rw [if_pos hf]
    obtain ⟨h1, h2, h3, h4, h5, h6, h7, h8⟩ := updateCP_ctx acc k
    refine ⟨h1, h2, h3, h4, h5, h6, h7, ?_⟩
    show ((ConvolverManager.UpdateConvolverParameters acc k).convolvers.set k _).length = _
    rw [List.length_set]
    exact h8
  · rw [if_neg hf]
    refine ⟨rfl, rfl, rfl, rfl, rfl, rfl, rfl, ?_⟩
    show (acc.convolvers.set k _).length = _
    rw [List.length_set]

theorem convolveStartStep_getD_ne (interp : List ℚ → ℚ → ℚ)
    (conv : ℕ → List ℚ → List ℚ) (input : ℕ → ℚ) (ic oc : ℕ)
    (acc : ConvolverManager.MState) (k j : ℕ) (h : j ≠ k) :
    (ConvolverManager.convolveStartStep interp conv input ic oc acc k).convolvers.getD
        j default
      = acc.convolvers.getD j default := by
  rw [convolveStartStep_eq]
  rw [setWorker_getD_ne _ _ _ _ h]
  by_cases hf : acc.updateparameters = true
  · rw [if_pos hf]
    exact updateCP_getD_ne acc k j h
  · rw [if_neg hf]

theorem convolveStartStep_getD_self (interp : List ℚ → ℚ → ℚ)
    (conv : ℕ → List ℚ → List ℚ) (input : ℕ → ℚ) (ic oc : ℕ)
    (acc : ConvolverManager.MState) (k : ℕ) (hk : k < acc.convolvers.length) :
    (ConvolverManager.convolveStartStep interp conv input ic oc acc k).convolvers.getD
        k default
      = ConvolverManager.startWorker interp conv input ic oc k
          (if acc.updateparameters
           then ConvolverManager.updateWorkerParams acc k (acc.convolvers.getD k default)
           else acc.convolvers.getD k default) := by
  rw [convolveStartStep_eq]
  by_cases hf : acc.updateparameters = true
  · rw [if_pos hf, if_pos hf]
    rw [setWorker_getD_self _ _ _ (by rw [(updateCP_ctx acc k).2.2.2.2.2.2.2]; exact hk)]
    rw [updateCP_getD_self_total acc k hk]
  · rw [if_neg hf, if_neg hf]
    rw [setWorker_getD_self _ _ _ hk]

/-- Characterisation of the whole start loop of `ConvolverManager::Convolve`:
manager-level fields are untouched, workers at index `≥ k` are untouched, and
each worker `i < k` has been parameter-updated (iff the flag was set) and
started exactly once. -/
theorem convolveStart_fold (interp : List ℚ → ℚ → ℚ) (conv : ℕ → List ℚ → List ℚ)
    (input : ℕ → ℚ) (ic oc : ℕ) (m : ConvolverManager.MState) (k : ℕ) :
    let mk' := (List.range k).foldl
      (ConvolverManager.convolveStartStep interp conv input ic oc) m
    (mk'.parameters = m.parameters ∧ mk'.numfilters = m.numfilters
      ∧ mk'.irdelays = m.irdelays ∧ mk'.delayscale = m.delayscale
      ∧ mk'.hqproc = m.hqproc ∧ mk'.audioscale = m.audioscale
      ∧ mk'.updateparameters = m.updateparameters
      ∧ mk'.convolvers.length = m.convolvers.length)
    ∧ (∀ i, k ≤ i → mk'.convolvers.getD i default = m.convolvers.getD i default)
    ∧ (∀ i, i < k → i < m.convolvers.length →
        mk'.convolvers.getD i default
          = ConvolverManager.startWorker interp conv input ic oc i
              (if m.updateparameters
               then ConvolverManager.updateWorkerParams m i (m.convolvers.getD i default)
               else m.convolvers.getD i default)) := by
  induction k with
  | zero =>
    exact ⟨⟨rfl, rfl, rfl, rfl, rfl, rfl, rfl, rfl⟩, fun i _ => rfl,
      fun i hi _ => absurd hi (by omega)⟩
  | succ k ih =>
    obtain ⟨⟨hp, hn, hd, hs, hh, ha, hu, hl⟩, hrest, hdone⟩ := ih
    have hsplit : (List.range (k + 1)).foldl
        (ConvolverManager.convolveStartStep interp conv input ic oc) m
        = ConvolverManager.convolveStartStep interp conv input ic oc
            ((List.range k).foldl
              (ConvolverManager.convolveStartStep interp conv input ic oc) m) k := by
      rw [List.range_succ, List.foldl_append]
      rfl
    set acc := (List.range k).foldl
      (ConvolverManager.convolveStartStep interp conv input ic oc) m with hacc
    refine ⟨?_, ?_, ?_⟩
    · obtain ⟨g1, g2, g3, g4, g5, g6, g7, g8⟩ :=
        convolveStartStep_ctx interp conv input ic oc acc k
      rw [hsplit]
      exact ⟨g1.trans hp, g2.trans hn, g3.trans hd, g4.trans hs, g5.trans hh,
        g6.trans ha, g7.trans hu, g8.trans hl⟩
    · intro i hi
      rw [hsplit, convolveStartStep_getD_ne interp conv input ic oc acc k i (by omega)]
      exact hrest i (by omega)
    · intro i hi hilen
      rcases Nat.lt_or_ge i k with hik | hik
      · rw [hsplit, convolveStartStep_getD_ne interp conv input ic oc acc k i (by omega)]
        exact hdone i hik hilen
      · have hik' : i = k := by omega
        subst hik'
        rw [hsplit,
          convolveStartStep_getD_self interp conv input ic oc acc i (by omega)]
        rw [hrest i le_rfl, hu]
        by_cases hf : m.updateparameters = true
        · rw [if_pos hf, if_pos hf]
          rw [updateWorkerParams_congr m acc i _ hp hn hd hs hh]
        · rw [if_neg hf, if_neg hf]

theorem startWorker_inputBlock (interp : List ℚ → ℚ → ℚ)
    (conv : ℕ → List ℚ → List ℚ) (input : ℕ → ℚ) (ic oc : ℕ) (i : ℕ)
    (w : Convolver.State) :
    (ConvolverManager.startWorker interp conv input ic oc i w).inputBlock
      = (List.range w.blocksize).map fun n => input (i / oc + n * ic) := by
  simp only [ConvolverManager.startWorker]
  split
  · rfl
  · rfl

/-! ### Claims -/

/-- C3 (corrected: the quotient is the C floor division, not a ceiling).
For every worker constructed with partition count `P` and block size `B`, the
silence-gate threshold is `maxzeroblocks = P + ⌊maxadditionaldelay / B⌋ + 1`,
with `maxadditionaldelay` the process-wide constant 2400. -/
theorem C3_theorem (ci B P : ℕ) (d : ℚ) (f : ℕ) :
    (Convolver.mk ci B P d f).maxzeroblocks
      = P + (⌊(Convolver.maxadditionaldelay : ℚ) / (B : ℚ)⌋).toNat + 1
    ∧ Convolver.maxadditionaldelay = 2400 := by
  constructor
  · show P + Convolver.maxadditionaldelay / B + 1 = _
    rw [toNat_floor_natCast_div]
  · rfl

/-- C3 counterexample to the claim as stated: at block size 128 (which
does not divide 2400) the code computes `P + 18 + 1`, not
`P + ⌈2400/128⌉ + 1 = P + 19 + 1`. -/
theorem C3_counterexample :
    (Convolver.mk 0 128 2 0 0).maxzeroblocks
      ≠ 2 + (⌈(2400 : ℚ) / (128 : ℚ)⌉).toNat + 1 := by
  have h1 : (⌈((2400 : ℕ) : ℚ) / ((128 : ℕ) : ℚ)⌉).toNat = (2400 + 128 - 1) / 128 :=
    toNat_ceil_natCast_div 2400 128 (by norm_num)
  have h2 : (⌈(2400 : ℚ) / (128 : ℚ)⌉).toNat = 19 := by
    rw [show ((2400 : ℚ)) = (((2400 : ℕ)) : ℚ) by norm_num,
      show ((128 : ℚ)) = (((128 : ℕ)) : ℚ) by norm_num, h1]
  rw [h2]
  decide

/-- C7 (corrected): the tail delay line has exactly
`D = ⌈(maxadditionaldelay + B) / B⌉ · B` samples, the form given in §3 of the
spec; in the §4.6 form `(1 + ⌈(maxadditionaldelay + B - 1) / B⌉)·B` the inner
quotient is C integer (floor) division, so no further ceiling applies. -/
theorem C7_theorem (B : ℕ) (hB : 0 < B) :
    Convolver.delayLen B
      = (⌈((Convolver.maxadditionaldelay + B : ℕ) : ℚ) / (B : ℚ)⌉).toNat * B := by
  rw [toNat_ceil_natCast_div _ _ hB]
  unfold Convolver.delayLen
  have h : Convolver.maxadditionaldelay + B + B - 1
      = (Convolver.maxadditionaldelay + B - 1) + B := by
    unfold Convolver.maxadditionaldelay
    omega
  rw [h, Nat.add_div_right _ hB]
  ring

/-- C7 witness at block size 128. -/
theorem C7_witness :
    0 < 128 ∧ Convolver.delayLen 128
      = (⌈((Convolver.maxadditionaldelay + 128 : ℕ) : ℚ) / ((128 : ℕ) : ℚ)⌉).toNat * 128 :=
  ⟨by decide, C7_theorem 128 (by decide)⟩

/-- C7 counterexample to the claim as stated: at `B = 128` the literal
formula `(1 + ⌈(2400 + 128 - 1)/128⌉)·128 = 2688` differs from the allocated
`delayLen 128 = 2560`. -/
theorem C7_counterexample :
    Convolver.delayLen 128
      ≠ (1 + (⌈(2400 + 128 - 1 : ℚ) / (128 : ℚ)⌉).toNat) * 128 := by
  have h1 : (⌈((2527 : ℕ) : ℚ) / ((128 : ℕ) : ℚ)⌉).toNat = (2527 + 128 - 1) / 128 :=
    toNat_ceil_natCast_div 2527 128 (by norm_num)
  have h2 : (⌈(2400 + 128 - 1 : ℚ) / (128 : ℚ)⌉).toNat = 20 := by
    rw [show ((2400 + 128 - 1 : ℚ)) = (((2527 : ℕ)) : ℚ) by norm_num,
      show ((128 : ℚ)) = (((128 : ℕ)) : ℚ) by norm_num, h1]
  rw [h2]
  decide

/-- C8: the filter-build computation yields
`filter_start = ⌊max(fade_in_start, 0)·SR⌋`;
`filter_len = L - filter_start` when `fade_out_start + fade_out_length = 0`
and otherwise
`min(⌈max(fade_out_start + fade_out_length - fade_in_start, 0)·SR⌉, L - filter_start)`;
and the returned partition count is `⌈filter_len / B⌉`. -/
theorem C8_theorem (fade : FILTER_FADE) (sr : ℚ) (L B : ℕ) (hB : 0 < B)
    (hsr : 0 ≤ sr) (hstart : ConvolverManager.calcFilterStart fade sr ≤ L) :
    let r := ConvolverManager.CalcPartitions fade sr L B
    ((r.2.1 : ℤ) = ⌊max fade.fade_in_start 0 * sr⌋)
    ∧ (fade.fade_out_start + fade.fade_out_length = 0 → r.2.2 = L - r.2.1)
    ∧ (fade.fade_out_start + fade.fade_out_length ≠ 0 →
        (r.2.2 : ℤ) =
          min ⌈max (fade.fade_out_start + fade.fade_out_length - fade.fade_in_start) 0 * sr⌉
            ((L : ℤ) - (r.2.1 : ℤ)))
    ∧ (r.1 : ℤ) = ⌈(r.2.2 : ℚ) / (B : ℚ)⌉ := by
  intro r
  have hstartz : (0 : ℤ) ≤ ⌊max fade.fade_in_start 0 * sr⌋ :=
    Int.floor_nonneg.mpr (mul_nonneg (le_max_right _ _) hsr)
  have hr1 : r.2.1 = ConvolverManager.calcFilterStart fade sr := rfl
  have hr2 : r.2.2 = ConvolverManager.calcFilterLen fade sr L r.2.1 := rfl
  refine ⟨?_, ?_, ?_, ?_⟩
  · rw [hr1]
    unfold ConvolverManager.calcFilterStart
    rw [Int.toNat_of_nonneg hstartz]
  · intro h
    rw [hr2]
    unfold ConvolverManager.calcFilterLen
    rw [if_pos h]
  · intro h
    rw [hr2]
    unfold ConvolverManager.calcFilterLen
    rw [if_neg h]
    have hcz : (0 : ℤ) ≤
        ⌈max (fade.fade_out_start + fade.fade_out_length - fade.fade_in_start) 0 * sr⌉ :=
      Int.ceil_nonneg (mul_nonneg (le_max_right _ _) hsr)
    push_cast [Int.toNat_of_nonneg hcz, Nat.cast_sub (hr1 ▸ hstart)]
    rfl
  · have : r.1 = (r.2.2 + B - 1) / B := rfl
    rw [this]
    exact intCast_ceil_natCast_div r.2.2 B hB

/-- C8 witness: a fade of `{0, 0, 1, 1}` at 10 Hz on a 100-sample IR with
block size 8 gives start 0, length 20 and 3 partitions. -/
theorem C8_witness :
    (0 < 8) ∧ ((0 : ℚ) ≤ 10)
    ∧ (ConvolverManager.calcFilterStart ⟨0, 0, 1, 1⟩ 10 ≤ 100)
    ∧ (let r := ConvolverManager.CalcPartitions ⟨0, 0, 1, 1⟩ 10 100 8
      ((r.2.1 : ℤ) = ⌊max (FILTER_FADE.fade_in_start ⟨0, 0, 1, 1⟩) 0 * 10⌋)
      ∧ (FILTER_FADE.fade_out_start ⟨0, 0, 1, 1⟩
          + FILTER_FADE.fade_out_length ⟨0, 0, 1, 1⟩ = 0 → r.2.2 = 100 - r.2.1)
      ∧ (FILTER_FADE.fade_out_start ⟨0, 0, 1, 1⟩
          + FILTER_FADE.fade_out_length ⟨0, 0, 1, 1⟩ ≠ 0 →
          (r.2.2 : ℤ) =
            min ⌈max (FILTER_FADE.fade_out_start ⟨0, 0, 1, 1⟩
                + FILTER_FADE.fade_out_length ⟨0, 0, 1, 1⟩
                - FILTER_FADE.fade_in_start ⟨0, 0, 1, 1⟩) 0 * 10⌉
              ((100 : ℤ) - (r.2.1 : ℤ)))
      ∧ (r.1 : ℤ) = ⌈(r.2.2 : ℚ) / ((8 : ℕ) : ℚ)⌉) :=
  ⟨by decide, by simp,
    by simp [ConvolverManager.calcFilterStart],
    C8_theorem ⟨0, 0, 1, 1⟩ 10 100 8 (by decide) (by simp)
      (by simp [ConvolverManager.calcFilterStart])⟩

/-- A small concrete manager used to instantiate the manager theorems. -/
def sampleManager : ConvolverManager.MState :=
  { blocksize := 4
    partitions := 1
    convolvers := [Convolver.mk 0 4 1 0 0, Convolver.mk 1 4 1 0 0]
    numfilters := 2
    irdelays := [(1, 2), (3, 4)]
    parameters := [⟨0, 0, 1⟩, ⟨1, 5, 2⟩]
    delayscale := 1
    maxdelay := 0
    audioscale := 1
    hqproc := false
    updateparameters := false }

/-- C10: when the stored IR index of worker `i` is not below the number of
loaded filters, `UpdateConvolverParameters` is a complete no-op on the whole
manager state, with no error reported. -/
theorem C10_theorem (m : ConvolverManager.MState) (i : ℕ)
    (h : m.numfilters ≤ (m.parameters.getD i default).irindex) :
    ConvolverManager.UpdateConvolverParameters m i = m := by
  unfold ConvolverManager.UpdateConvolverParameters
  split
  · rw [if_neg (by omega)]
  · rfl

/-- C10 witness: a manager whose worker 0 stores IR index 0 while the
library is empty. -/
theorem C10_witness :
    ({ sampleManager with numfilters := 0 } : ConvolverManager.MState).numfilters
      ≤ (({ sampleManager with numfilters := 0 } :
          ConvolverManager.MState).parameters.getD 0 default).irindex
    ∧ ConvolverManager.UpdateConvolverParameters
        { sampleManager with numfilters := 0 } 0
      = { sampleManager with numfilters := 0 } :=
  ⟨by decide, C10_theorem { sampleManager with numfilters := 0 } 0 (by decide)⟩

/-- C4: `UpdateConvolverParameters` on a worker whose stored IR index has
a delay entry passes the effective delay
`static + dynamic · delayscale + extra_delay`, the stored gain, and the
HQ flag of the manager, and selects filter `irindex` from the library. -/
theorem C4_theorem (m : ConvolverManager.MState) (i : ℕ)
    (hi : i < m.convolvers.length)
    (hir : (m.parameters.getD i default).irindex < m.numfilters)
    (hd : (m.parameters.getD i default).irindex < m.irdelays.length) :
    let p := m.parameters.getD i default
    let d := m.irdelays.getD p.irindex (0, 0)
    let w' := (ConvolverManager.UpdateConvolverParameters m i).convolvers.getD i default
    w'.filter = some p.irindex
    ∧ w'.outputdelay = d.2 + d.1 * m.delayscale + p.delay
    ∧ w'.outputlevel = p.level
    ∧ w'.hqproc = m.hqproc := by
  intro p d w'
  have hw : w' = ConvolverManager.updateWorkerParams m i (m.convolvers.getD i default) := by
    show (ConvolverManager.UpdateConvolverParameters m i).convolvers.getD i default = _
    unfold ConvolverManager.UpdateConvolverParameters
    rw [if_pos hi, if_pos hir]
    exact getD_set_self _ _ _ hi
  rw [hw]
  unfold ConvolverManager.updateWorkerParams
  rw [if_pos hir, if_pos hd]
  unfold Convolver.SetParameters Convolver.SetFilter
  refine ⟨rfl, ?_, rfl, rfl⟩
  show (d.2 + d.1 * m.delayscale) + p.delay = d.2 + d.1 * m.delayscale + p.delay
  ring

/-- C4 witness: worker 1 of the sample manager stores IR 1 with gain 2 and
extra delay 5; the delay entry is `(3, 4)`. -/
theorem C4_witness :
    (1 < sampleManager.convolvers.length)
    ∧ ((sampleManager.parameters.getD 1 default).irindex < sampleManager.numfilters)
    ∧ ((sampleManager.parameters.getD 1 default).irindex < sampleManager.irdelays.length)
    ∧ (let p := sampleManager.parameters.getD 1 default
      let d := sampleManager.irdelays.getD p.irindex (0, 0)
      let w' := (ConvolverManager.UpdateConvolverParameters sampleManager 1).convolvers.getD
        1 default
      w'.filter = some p.irindex
      ∧ w'.outputdelay = d.2 + d.1 * sampleManager.delayscale + p.delay
      ∧ w'.outputlevel = p.level
      ∧ w'.hqproc = sampleManager.hqproc) :=
  ⟨by decide, by decide, by decide,
    C4_theorem sampleManager 1 (by decide) (by decide) (by decide)⟩

/-- C2: `StartConvolution` de-interleaves `blocksize` samples; the zero
counter resets to 0 on any non-zero sample, otherwise increments saturating
at `maxzeroblocks`; the start semaphore is signalled iff the updated counter
is below `maxzeroblocks`; and `zeroblocks ≤ maxzeroblocks` is preserved. -/
theorem C2_theorem (w : Convolver.State) (inputData : ℕ → ℚ) (ic : ℕ)
    (hinv : w.zeroblocks ≤ w.maxzeroblocks) :
    let r := Convolver.StartConvolution w inputData ic
    (r.1.inputBlock = (List.range w.blocksize).map fun i => inputData (i * ic))
    ∧ (r.1.zeroblocks = if ∃ x ∈ r.1.inputBlock, x ≠ 0 then 0
        else min (w.zeroblocks + 1) w.maxzeroblocks)
    ∧ (r.2 = true ↔ r.1.zeroblocks < w.maxzeroblocks)
    ∧ r.1.zeroblocks ≤ w.maxzeroblocks := by
  intro r
  have h1 : r.1.inputBlock = (List.range w.blocksize).map fun i => inputData (i * ic) := rfl
  have hz : r.1.zeroblocks =
      if ((List.range w.blocksize).map fun i => inputData (i * ic)).any
          (fun v => decide (v ≠ 0))
      then 0 else if w.zeroblocks < w.maxzeroblocks then w.zeroblocks + 1
      else w.zeroblocks := rfl
  have hb : (((List.range w.blocksize).map fun i => inputData (i * ic)).any
      (fun v => decide (v ≠ 0)) = true) ↔ ∃ x ∈ r.1.inputBlock, x ≠ 0 := by
    rw [h1, List.any_eq_true]
    constructor
    · rintro ⟨x, hx, hdx⟩
      exact ⟨x, hx, of_decide_eq_true hdx⟩
    · rintro ⟨x, hx, hdx⟩
      exact ⟨x, hx, decide_eq_true hdx⟩
  refine ⟨h1, ?_, ?_, ?_⟩
  · by_cases hex : ∃ x ∈ r.1.inputBlock, x ≠ 0
    · rw [if_pos hex, hz, if_pos (hb.mpr hex)]
    · rw [if_neg hex, hz, if_neg (fun hc => hex (hb.mp hc))]
      split
      · omega
      · omega
  · show decide (r.1.zeroblocks < w.maxzeroblocks) = true ↔
      r.1.zeroblocks < w.maxzeroblocks
    exact decide_eq_true_iff
  · rw [hz]
    split
    · omega
    · split
      · omega
      · omega

/-- C2 witness: a two-sample worker fed a constant non-zero input. -/
theorem C2_witness :
    ((Convolver.mk 0 2 1 0 0).zeroblocks ≤ (Convolver.mk 0 2 1 0 0).maxzeroblocks)
    ∧ (let r := Convolver.StartConvolution (Convolver.mk 0 2 1 0 0) (fun _ => 1) 1
      (r.1.inputBlock = (List.range (Convolver.mk 0 2 1 0 0).blocksize).map
        fun i => (fun _ => (1 : ℚ)) (i * 1))
      ∧ (r.1.zeroblocks = if ∃ x ∈ r.1.inputBlock, x ≠ 0 then 0
          else min ((Convolver.mk 0 2 1 0 0).zeroblocks + 1)
            (Convolver.mk 0 2 1 0 0).maxzeroblocks)
      ∧ (r.2 = true ↔ r.1.zeroblocks < (Convolver.mk 0 2 1 0 0).maxzeroblocks)
      ∧ r.1.zeroblocks ≤ (Convolver.mk 0 2 1 0 0).maxzeroblocks) :=
  ⟨by decide, C2_theorem (Convolver.mk 0 2 1 0 0) (fun _ => 1) 1 (by decide)⟩

/-- C6: `SelectIR` succeeds iff both indices are in range; on failure the
whole manager state is unchanged; on success the parameter table stores
`(ir, delay, level)` for that worker and the worker is updated (its filter
becomes `ir` and its level the given one). -/
theorem C6_theorem (m : ConvolverManager.MState) (conv ir : ℕ) (level delay : ℚ)
    (hlen : m.parameters.length = m.convolvers.length) :
    let r := ConvolverManager.SelectIR m conv ir level delay
    (r.1 = true ↔ conv < m.convolvers.length ∧ ir < m.numfilters)
    ∧ (r.1 = false → r.2 = m)
    ∧ (r.1 = true →
        r.2.parameters.getD conv default = ⟨ir, delay, level⟩
        ∧ (r.2.convolvers.getD conv default).filter = some ir
        ∧ (r.2.convolvers.getD conv default).outputlevel = level) := by
  intro r
  by_cases h1 : conv < m.convolvers.length
  · by_cases h2 : ir < m.numfilters
    · have hr : r = (true,
          ConvolverManager.UpdateConvolverParameters
            { m with parameters := m.parameters.set conv ⟨ir, delay, level⟩ } conv) := by
        show ConvolverManager.SelectIR m conv ir level delay = _
        unfold ConvolverManager.SelectIR
        rw [if_pos h1, if_pos h2]
      set m1 : ConvolverManager.MState :=
        { m with parameters := m.parameters.set conv ⟨ir, delay, level⟩ } with hm1
      have hp1 : m1.parameters.getD conv default = ⟨ir, delay, level⟩ := by
        show (m.parameters.set conv ⟨ir, delay, level⟩).getD conv default = _
        exact getD_set_self _ _ _ (by omega)
      have hcl : conv < m1.convolvers.length := h1
      have hir1 : (m1.parameters.getD conv default).irindex < m1.numfilters := by
        rw [hp1]
        exact h2
      refine ⟨by simp [hr, h1, h2], by simp [hr], fun _ => ?_⟩
      rw [hr]
      simp only
      refine ⟨?_, ?_⟩
      · rw [updateCP_parameters]
        exact hp1
      · rw [updateCP_getD_self m1 conv hcl hir1]
        unfold ConvolverManager.updateWorkerParams
        rw [hp1, if_pos h2]
        exact ⟨rfl, rfl⟩
    · have hr : r = (false, m) := by
        show ConvolverManager.SelectIR m conv ir level delay = _
        unfold ConvolverManager.SelectIR
        rw [if_pos h1, if_neg h2]
      refine ⟨by simp [hr, h2], by simp [hr], by simp [hr]⟩
  · have hr : r = (false, m) := by
      show ConvolverManager.SelectIR m conv ir level delay = _
      unfold ConvolverManager.SelectIR
      rw [if_neg h1]
    refine ⟨by simp [hr, h1], by simp [hr], by simp [hr]⟩

/-- C6 witness: selecting IR 1 with gain 3 and delay 7 on worker 0 of the
sample manager. -/
theorem C6_witness :
    (sampleManager.parameters.length = sampleManager.convolvers.length)
    ∧ (let r := ConvolverManager.SelectIR sampleManager 0 1 3 7
      (r.1 = true ↔ 0 < sampleManager.convolvers.length ∧ 1 < sampleManager.numfilters)
      ∧ (r.1 = false → r.2 = sampleManager)
      ∧ (r.1 = true →
          r.2.parameters.getD 0 default = ⟨1, 7, 3⟩
          ∧ (r.2.convolvers.getD 0 default).filter = some 1
          ∧ (r.2.convolvers.getD 0 default).outputlevel = 3)) :=
  ⟨by decide, C6_theorem sampleManager 0 1 3 7 (by decide)⟩

/-- C1: for every processed block in non-HQ mode, output sample `n` is
`g · tail_delay_line[⌊pos⌋ mod D]` with `a = 1 - n/B`, `b = n/B`,
`pos = a·(delay_pos + D - prev_delay) + b·((delay_pos + B) + D - cur_delay)`,
`g = a·prev_gain + b·cur_gain`, where the `cur_delay` actually used is
clamped to at most `D - B - 1 - fracdelay`; afterwards `delay_pos` advances
by `B` modulo `D` and `prev_delay`/`prev_gain` take the current values. -/
theorem C1_theorem (interp : List ℚ → ℚ → ℚ) (w : Convolver.State) (convOut : List ℚ)
    (hq : w.hqproc = false) :
    let D := Convolver.delayLen w.blocksize
    let B := w.blocksize
    let curdelay := min w.outputdelay (((D - B - 1 - w.fracdelay : ℕ) : ℚ))
    let w' := Convolver.processBlock interp w convOut
    (∀ n, n < B →
      w'.outputBlock.getD n 0 =
        ((1 - (n : ℚ) / (B : ℚ)) * w.level1 + ((n : ℚ) / (B : ℚ)) * w.outputlevel) *
          w'.delayline.getD
            ((⌊(1 - (n : ℚ) / (B : ℚ)) * ((w.delaypos : ℚ) + (D : ℚ) - w.delay1)
              + ((n : ℚ) / (B : ℚ))
                * (((w.delaypos : ℚ) + (B : ℚ)) + (D : ℚ) - curdelay)⌋).toNat % D) 0)
    ∧ w'.delaypos = (w.delaypos + B) % D
    ∧ w'.delay1 = curdelay
    ∧ w'.level1 = w.outputlevel := by
  intro D B curdelay w'
  refine ⟨?_, rfl, rfl, rfl⟩
  intro n hn
  have h1 : w'.outputBlock.getD n 0 =
      Convolver.outSample interp w'.delayline D B
        (((w.delaypos + D : ℕ) : ℚ) - w.delay1)
        (((w.delaypos + D + B : ℕ) : ℚ) - curdelay) w.level1 w.outputlevel w.hqproc n :=
    getD_map_range _ _ _ hn 0
  rw [h1]
  unfold Convolver.outSample
  rw [hq]
  simp only [Bool.false_eq_true, if_false]
  have hpos : (1 - (n : ℚ) / (B : ℚ)) * (((w.delaypos + D : ℕ) : ℚ) - w.delay1)
      + ((n : ℚ) / (B : ℚ)) * (((w.delaypos + D + B : ℕ) : ℚ) - curdelay)
      = (1 - (n : ℚ) / (B : ℚ)) * ((w.delaypos : ℚ) + (D : ℚ) - w.delay1)
        + ((n : ℚ) / (B : ℚ)) * (((w.delaypos : ℚ) + (B : ℚ)) + (D : ℚ) - curdelay) := by
    push_cast
    ring
  rw [hpos]

/-- C1 witness: a four-sample worker processing one concrete block. -/
theorem C1_witness :
    ((Convolver.mk 0 4 1 0 0).hqproc = false)
    ∧ (let D := Convolver.delayLen (Convolver.mk 0 4 1 0 0).blocksize
      let B := (Convolver.mk 0 4 1 0 0).blocksize
      let curdelay := min (Convolver.mk 0 4 1 0 0).outputdelay
        (((D - B - 1 - (Convolver.mk 0 4 1 0 0).fracdelay : ℕ) : ℚ))
      let w' := Convolver.processBlock (fun _ _ => 0) (Convolver.mk 0 4 1 0 0) [1, 2, 3, 4]
      (∀ n, n < B →
        w'.outputBlock.getD n 0 =
          ((1 - (n : ℚ) / (B : ℚ)) * (Convolver.mk 0 4 1 0 0).level1
            + ((n : ℚ) / (B : ℚ)) * (Convolver.mk 0 4 1 0 0).outputlevel) *
            w'.delayline.getD
              ((⌊(1 - (n : ℚ) / (B : ℚ))
                * (((Convolver.mk 0 4 1 0 0).delaypos : ℚ) + (D : ℚ)
                  - (Convolver.mk 0 4 1 0 0).delay1)
                + ((n : ℚ) / (B : ℚ))
                  * ((((Convolver.mk 0 4 1 0 0).delaypos : ℚ) + (B : ℚ)) + (D : ℚ)
                    - curdelay)⌋).toNat % D) 0)
      ∧ w'.delaypos = ((Convolver.mk 0 4 1 0 0).delaypos + B) % D
      ∧ w'.delay1 = curdelay
      ∧ w'.level1 = (Convolver.mk 0 4 1 0 0).outputlevel) :=
  ⟨rfl, C1_theorem (fun _ _ => 0) (Convolver.mk 0 4 1 0 0) [1, 2, 3, 4] rfl⟩

/-- C5: in one tick, worker `i` is started on input channel
`⌊i / outputchannels⌋` of the interleaved input (its de-interleaved block is
`input[i/oc + n·ic]` for `n < B`), the output of the tick is the fold of the
per-worker `EndConvolution` steps, and each such step for an active worker
adds `output_block[n]·audioscale` at interleaved index `(i mod oc) + n·oc`
and touches no index of any other output channel (a gated worker leaves the
output untouched). -/
theorem C5_theorem (interp : List ℚ → ℚ → ℚ) (conv : ℕ → List ℚ → List ℚ)
    (m : ConvolverManager.MState) (input output : ℕ → ℚ) (ic oc : ℕ)
    (hoc : 0 < oc) :
    let r := ConvolverManager.Convolve interp conv m input output ic oc
    (∀ i, i < m.convolvers.length →
      (r.1.convolvers.getD i default).inputBlock
        = (List.range ((m.convolvers.getD i default).blocksize)).map
            fun n => input (i / oc + n * ic))
    ∧ r.2 = (List.range m.convolvers.length).foldl
        (ConvolverManager.convolveEndStep oc r.1.audioscale r.1.convolvers) output
    ∧ (∀ (ws : List Convolver.State) (o : ℕ → ℚ) (i : ℕ),
        ((ws.getD i default).zeroblocks < (ws.getD i default).maxzeroblocks →
          (∀ k, k < (ws.getD i default).blocksize →
            ConvolverManager.convolveEndStep oc m.audioscale ws o i (i % oc + k * oc)
              = o (i % oc + k * oc)
                + (ws.getD i default).outputBlock.getD k 0 * m.audioscale)
          ∧ (∀ idx, idx % oc ≠ i % oc →
              ConvolverManager.convolveEndStep oc m.audioscale ws o i idx = o idx))
        ∧ (¬ (ws.getD i default).zeroblocks < (ws.getD i default).maxzeroblocks →
            ConvolverManager.convolveEndStep oc m.audioscale ws o i = o)) := by
  intro r
  refine ⟨?_, rfl, ?_⟩
  · intro i hi
    have hfold :=
      (convolveStart_fold interp conv input ic oc m m.convolvers.length).2.2 i hi hi
    have hr1 : r.1.convolvers.getD i default
        = ((List.range m.convolvers.length).foldl
            (ConvolverManager.convolveStartStep interp conv input ic oc)
            m).convolvers.getD i default := rfl
    rw [hr1, hfold, startWorker_inputBlock]
    by_cases hf : m.updateparameters = true
    · rw [if_pos hf, updateWorkerParams_blocksize]
    · rw [if_neg hf]
  · intro ws o i
    constructor
    · intro hact
      constructor
      · intro k hk
        show Convolver.EndConvolution (ws.getD i default) o (i % oc) oc
          m.audioscale (i % oc + k * oc) = _
        unfold Convolver.EndConvolution
        rw [if_pos hact]
        exact mixInto_apply_hit o (i % oc) oc _ _ _ k hoc hk
      · intro idx hidx
        show Convolver.EndConvolution (ws.getD i default) o (i % oc) oc
          m.audioscale idx = _
        unfold Convolver.EndConvolution
        rw [if_pos hact]
        apply mixInto_apply_ne
        rw [Nat.mod_mod_of_dvd i dvd_rfl]
        exact hidx
    · intro hinact
      show Convolver.EndConvolution (ws.getD i default) o (i % oc) oc m.audioscale = _
      unfold Convolver.EndConvolution
      rw [if_neg hinact]

/-- C5 witness: the sample manager with two workers, two input and two
output channels. -/
theorem C5_witness :
    (0 < 2)
    ∧ (let r := ConvolverManager.Convolve (fun _ _ => 0) (fun _ blk => blk) sampleManager
        (fun _ => 1) (fun _ => 0) 2 2
      (∀ i, i < sampleManager.convolvers.length →
        (r.1.convolvers.getD i default).inputBlock
          = (List.range ((sampleManager.convolvers.getD i default).blocksize)).map
              fun n => (fun _ => (1 : ℚ)) (i / 2 + n * 2))
      ∧ r.2 = (List.range sampleManager.convolvers.length).foldl
          (ConvolverManager.convolveEndStep 2 r.1.audioscale r.1.convolvers) (fun _ => 0)
      ∧ (∀ (ws : List Convolver.State) (o : ℕ → ℚ) (i : ℕ),
          ((ws.getD i default).zeroblocks < (ws.getD i default).maxzeroblocks →
            (∀ k, k < (ws.getD i default).blocksize →
              ConvolverManager.convolveEndStep 2 sampleManager.audioscale ws o i
                  (i % 2 + k * 2)
                = o (i % 2 + k * 2)
                  + (ws.getD i default).outputBlock.getD k 0 * sampleManager.audioscale)
            ∧ (∀ idx, idx % 2 ≠ i % 2 →
                ConvolverManager.convolveEndStep 2 sampleManager.audioscale ws o i idx
                  = o idx))
          ∧ (¬ (ws.getD i default).zeroblocks < (ws.getD i default).maxzeroblocks →
              ConvolverManager.convolveEndStep 2 sampleManager.audioscale ws o i = o))) :=
  ⟨by decide, C5_theorem (fun _ _ => 0) (fun _ blk => blk) sampleManager
    (fun _ => 1) (fun _ => 0) 2 2 (by decide)⟩

/-- C9 (corrected: `SetIRDelays` does not set the update flag).
`SetDelayScale`, `EnableHQProcessing` and a successful `LoadIRDelays` set the
update flag; `SetIRDelays` leaves it unchanged; the flag is consumed at the
start of the next `Convolve` tick: when set, `UpdateConvolverParameters` is
applied to every worker before that worker is started, and the flag is
cleared for the rest of the tick. -/
theorem C9_theorem (interp : List ℚ → ℚ → ℚ) (conv : ℕ → List ℚ → List ℚ)
    (m : ConvolverManager.MState) (input output : ℕ → ℚ) (ic oc : ℕ)
    (s : ℚ) (b : Bool) (l : List (ℚ × ℚ)) (dyn stat : List ℚ) (nd : ℕ) :
    ((ConvolverManager.SetDelayScale m s).updateparameters = true)
    ∧ ((ConvolverManager.EnableHQProcessing m b).updateparameters = true)
    ∧ ((ConvolverManager.LoadIRDelays m (some l)).updateparameters = true)
    ∧ ((ConvolverManager.SetIRDelays m dyn nd stat).updateparameters
        = m.updateparameters)
    ∧ ((ConvolverManager.Convolve interp conv m input output ic oc).1.updateparameters
        = false)
    ∧ (m.updateparameters = true →
        ∀ i, i < m.convolvers.length →
          (ConvolverManager.Convolve interp conv m input output
              ic oc).1.convolvers.getD i default
            = ConvolverManager.startWorker interp conv input ic oc i
                (ConvolverManager.updateWorkerParams m i
                  (m.convolvers.getD i default))) := by
  refine ⟨rfl, rfl, rfl, rfl, rfl, ?_⟩
  intro hf i hi
  have hfold :=
    (convolveStart_fold interp conv input ic oc m m.convolvers.length).2.2 i hi hi
  have hr1 : (ConvolverManager.Convolve interp conv m input output
        ic oc).1.convolvers.getD i default
      = ((List.range m.convolvers.length).foldl
          (ConvolverManager.convolveStartStep interp conv input ic oc)
          m).convolvers.getD i default := rfl
  rw [hr1, hfold, if_pos hf]

/-- C9 witness: the sample manager with the update flag set. -/
theorem C9_witness :
    (({ sampleManager with updateparameters := true } :
        ConvolverManager.MState).updateparameters = true)
    ∧ ((ConvolverManager.SetDelayScale { sampleManager with updateparameters := true }
        2).updateparameters = true)
    ∧ ((ConvolverManager.EnableHQProcessing
        { sampleManager with updateparameters := true } true).updateparameters = true)
    ∧ ((ConvolverManager.LoadIRDelays { sampleManager with updateparameters := true }
        (some [(1, 1)])).updateparameters = true)
    ∧ ((ConvolverManager.SetIRDelays { sampleManager with updateparameters := true }
        [1] 1 [2]).updateparameters
        = ({ sampleManager with updateparameters := true } :
            ConvolverManager.MState).updateparameters)
    ∧ ((ConvolverManager.Convolve (fun _ _ => 0) (fun _ blk => blk)
        { sampleManager with updateparameters := true } (fun _ => 1) (fun _ => 0)
        1 1).1.updateparameters = false)
    ∧ (∀ i, i < ({ sampleManager with updateparameters := true } :
          ConvolverManager.MState).convolvers.length →
        (ConvolverManager.Convolve (fun _ _ => 0) (fun _ blk => blk)
            { sampleManager with updateparameters := true } (fun _ => 1) (fun _ => 0)
            1 1).1.convolvers.getD i default
          = ConvolverManager.startWorker (fun _ _ => 0) (fun _ blk => blk)
              (fun _ => 1) 1 1 i
              (ConvolverManager.updateWorkerParams
                { sampleManager with updateparameters := true } i
                (({ sampleManager with updateparameters := true } :
                  ConvolverManager.MState).convolvers.getD i default))) := by
  have h := C9_theorem (fun _ _ => 0) (fun _ blk => blk)
    { sampleManager with updateparameters := true } (fun _ => 1) (fun _ => 0)
    1 1 2 true [(1, 1)] [1] [2] 1
  exact ⟨rfl, h.1, h.2.1, h.2.2.1, h.2.2.2.1, h.2.2.2.2.1, h.2.2.2.2.2 rfl⟩

/-- C9 counterexample to the claim as stated: `SetIRDelays` changes the
delay table (a parameter-changing operation) yet leaves the update flag
false. -/
theorem C9_counterexample :
    (ConvolverManager.SetIRDelays sampleManager [1] 1 [2]).updateparameters = false
    ∧ (ConvolverManager.SetIRDelays sampleManager [1] 1 [2]).irdelays = [(1, 2)] :=
  ⟨rfl, rfl⟩

end BbcatDsp
